import Mathlib

/-! Verification development for the chatlab / murkrow conversation drivers.

Shallow embedding of:
- src/chatlab/messaging.py        (message constructors)
- src/chatlab/conversation.py     (Chat: append, clear_history, __process_stream, submit)
- src/murkrow/conversation.py     (Conversation: submit, append)
- src/murkrow/murkrow.py          (Session: chat, append)

Conventions of the embedding:
- Python message dicts become records with Option fields; a key that is absent
  or holds None is `none`.
- Mutation of `self.messages` is embedded by state passing: the stream
  reducers and driver steps return the list of messages they append, and the
  new history is the old history concatenated with that list.  This is
  faithful because the source only ever appends to `self.messages` (via
  `self.append` or `self.messages.append`); appends that happen before an
  exception is raised are kept in the returned list.
- Exceptions (`raise ValueError(...)`) are embedded as an `error` field or an
  `Except.error` carrying the exception message.
- Parts of the repository that are not under src/ (the view/display
  accumulator classes and the function registry execution) are modelled from
  the spec; their doc comments say so explicitly.
-/

namespace Chatlab

/-- A function call payload inside an assistant message
(the "function_call" sub-dict built by chatlab/messaging.py). -/
structure FunctionCallData where
  name : String
  arguments : String
deriving Repr, DecidableEq

/-- A conversation message: the role-tagged dict of chatlab/messaging.py.
`content` is `none` when the dict stores None; `function_call` and `name` are
`none` when the key is absent. -/
structure Message where
  role : String
  content : Option String
  function_call : Option FunctionCallData := none
  name : Option String := none
deriving Repr, DecidableEq

/-- chatlab/messaging.py `assistant`: the assistant message constructor. -/
def assistant (content : String) : Message :=
  { role := "assistant", content := some content }

/-- chatlab/messaging.py `user`: the user message constructor. -/
def user (content : String) : Message :=
  { role := "user", content := some content }

/-- chatlab/messaging.py `system`: the system message constructor. -/
def systemMsg (content : String) : Message :=
  { role := "system", content := some content }

/-- chatlab/messaging.py `assistant_function_call`: a function call message
from the assistant.  `arguments=None` is replaced by the empty string. -/
def assistant_function_call (name : String) (arguments : Option String) : Message :=
  let args : String :=
    match arguments with
    | none => ""
    | some a => a
  { role := "assistant", content := none,
    function_call := some { name := name, arguments := args } }

/-- chatlab/messaging.py `function_result`: a function result message. -/
def function_result (name : String) (content : String) : Message :=
  { role := "function", content := some content, name := some name }

/-- chatlab/messaging.py alias `human = user`. -/
def human (content : String) : Message := user content

/-- chatlab/messaging.py alias `ai = assistant`. -/
def ai (content : String) : Message := assistant content

/-- chatlab/messaging.py alias `narrate = system`. -/
def narrate (content : String) : Message := systemMsg content

/-- An argument to `append` / `submit` / `chat`: either a raw string or a
message dict (`Union[Message, str]` in the source). -/
inductive MessageInput where
  | str (s : String)
  | msg (m : Message)
deriving Repr, DecidableEq

/-- The `isinstance(message, str)` coercion used by every append/submit loop:
a string becomes `human(message)`, a message is kept as is. -/
def coerceInput : MessageInput → Message
  | .str s => human s
  | .msg m => m

/-- Coercion of a whole argument list, in argument order. -/
def coerceInputs (inputs : List MessageInput) : List Message :=
  inputs.map coerceInput

/-- `Chat.append` / `Conversation.append` / `Session.append` (identical code in
all three classes): loop over the arguments, coerce strings to human messages,
and push each onto the end of `self.messages`. -/
def chatAppend (msgs : List Message) (inputs : List MessageInput) : List Message :=
  inputs.foldl (fun acc input => acc ++ [coerceInput input]) msgs

/-- `Chat.clear_history`: `self.messages = []`. -/
def clear_history (_msgs : List Message) : List Message := []

/-- A streamed `function_call` delta fragment: optional name fragment and
optional arguments fragment. -/
structure FunctionCallDelta where
  name : Option String := none
  arguments : Option String := none
deriving Repr, DecidableEq

/-- A streamed delta: optional content fragment, optional function_call
fragment. -/
structure Delta where
  content : Option String := none
  function_call : Option FunctionCallDelta := none
deriving Repr, DecidableEq

/-- One streamed choice: optional delta and optional finish reason. -/
structure Choice where
  delta : Option Delta := none
  finish_reason : Option String := none
deriving Repr, DecidableEq

/-- One streamed chunk (chatlab iterates `ChatCompletionChunk`s, each with a
list of choices; only the first choice is used and chunks with no choices are
skipped). -/
structure Chunk where
  choices : List Choice
deriving Repr, DecidableEq

/-- Exception message raised when arguments arrive before a name
(all three reducers). -/
def msgArgsNoName : String := "Function arguments provided without function name"

/-- Exception message raised by `Chat.__process_stream` when the stream ends
without a finish reason. -/
def msgNoFinish : String := "No finish reason provided by OpenAI"

/-- Exception message raised by `Chat.submit` when the finish reason is
function_call but no function call view was accumulated. -/
def msgIncompleteCall : String :=
  "Function call was the stated function_call reason without having a complete function call. If you see this, report it as an issue to https://github.com/rgbkrk/chatlab/issues"

/-- Exception message raised by `Conversation.submit` / `Session.chat` when a
function_call finish arrives with no accumulated function call. -/
def msgFinishNoName : String := "Function call finished without function name"

/-- The four dispatch branches of the delta-stream reducers. -/
inductive Branch where
  | content
  | fcName
  | fcArgs
  | finish
deriving Repr, DecidableEq

/-- Result of processing one choice in `Chat.__process_stream`.
`appended` are the messages pushed onto the history while handling the choice,
`buf` is the assistant text accumulator afterwards
(the `AssistantMessageView`, modelled from the spec as a string buffer that is
in progress exactly when nonempty), `fv` is the function call accumulator
(the `AssistantFunctionCallView`, modelled from the spec as a name together
with an accumulated argument string), `branches` records which dispatch
branches ran, `error` is the raised exception message if any, and `finish` is
the recorded finish reason if the choice carried one. -/
structure ChatChoiceResult where
  appended : List Message := []
  buf : String := ""
  fv : Option (String × String) := none
  branches : List Branch := []
  error : Option String := none
  finish : Option String := none
deriving Repr, DecidableEq

/-- One iteration of the `async for` loop body of `Chat.__process_stream`
(src/chatlab/conversation.py lines 151-171), for a single choice.
The flush of the in-progress assistant view into `assistant(buf)` is modelled
from the spec (the view classes are not under src/): the buffered text is
flushed into an immutable assistant message and the buffer discarded. -/
def chatProcessChoice (buf : String) (fv : Option (String × String)) (c : Choice) :
    ChatChoiceResult :=
  let afterDelta : ChatChoiceResult :=
    match c.delta with
    | none => { buf := buf, fv := fv }
    | some d =>
      match d.content with
      | some txt => { buf := buf ++ txt, fv := fv, branches := [Branch.content] }
      | none =>
        match d.function_call with
        | none => { buf := buf, fv := fv }
        | some fc =>
          let nameStep : ChatChoiceResult :=
            match fc.name with
            | none => { buf := buf, fv := fv }
            | some n =>
              cond (buf != "")
                { appended := [assistant buf], buf := "", fv := some (n, ""),
                  branches := [Branch.fcName] }
                { buf := buf, fv := some (n, ""), branches := [Branch.fcName] }
          match fc.arguments with
          | none => nameStep
          | some a =>
            match nameStep.fv with
            | none =>
              { nameStep with branches := nameStep.branches ++ [Branch.fcArgs],
                              error := some msgArgsNoName }
            | some nargs =>
              { nameStep with fv := some (nargs.1, nargs.2 ++ a),
                              branches := nameStep.branches ++ [Branch.fcArgs] }
  match afterDelta.error with
  | some _ => afterDelta
  | none =>
    match c.finish_reason with
    | none => afterDelta
    | some r =>
      { afterDelta with branches := afterDelta.branches ++ [Branch.finish],
                        finish := some r }

/-- `Chat.__process_stream` (src/chatlab/conversation.py lines 137-182).
Returns the messages appended to the history and either the raised exception
message or `(finish_reason, function_view, unconsumed rest of the stream)`.
Chunks with an empty choice list are skipped; the loop breaks at the first
non-null finish reason; after the loop (on break or on exhaustion) an
in-progress assistant buffer is flushed; exhaustion without a finish reason
raises after flushing, and the arguments-without-name error raises without the
final flush. -/
def chatProcessStream (buf : String) (fv : Option (String × String)) :
    List Chunk → List Message × Except String (String × Option (String × String) × List Chunk)
  | [] =>
    (cond (buf != "") [assistant buf] [], Except.error msgNoFinish)
  | ch :: rest =>
    match ch.choices.head? with
    | none => chatProcessStream buf fv rest
    | some choice =>
      let r := chatProcessChoice buf fv choice
      match r.error with
      | some e => (r.appended, Except.error e)
      | none =>
        match r.finish with
        | some reason =>
          (r.appended ++ cond (r.buf != "") [assistant r.buf] [],
            Except.ok (reason, r.fv, rest))
        | none =>
          let rec2 := chatProcessStream r.buf r.fv rest
          (r.appended ++ rec2.1, rec2.2)

/-- Outcome of one `client.chat.completions.create` call: either the API
raises `openai.RateLimitError`, or the call succeeds and yields a stream of
chunks. -/
inductive APIOutcome where
  | rateLimited
  | success (stream : List Chunk)
deriving Repr, DecidableEq

/-- What `Chat.submit` decides to do after one API round. -/
inductive NextAction where
  | halt
  | retrySame (delaySeconds : Nat)
  | resubmitEmpty
deriving Repr, DecidableEq

/-- Result of one round of `Chat.submit`: the messages appended to
`self.messages`, the request body sent to the API (`full_messages`), the
continuation decision, the raised exception message if any, and the inline
diagnostics printed. -/
structure ChatStepResult where
  appended : List Message := []
  request : Option (List Message) := none
  action : NextAction := .halt
  error : Option String := none
  printed : List String := []
deriving Repr, DecidableEq

/-- One round of `Chat.submit` (src/chatlab/conversation.py lines 184-268),
given the outcome of the API call.  `call` models
`ChatFunctionCall(...).call()`.  Modelled from the spec: the registry executes
the named callable on the accumulated argument string and the response (or
error) message is included for the model; chatlab/display.py is not under
src/, so the call is an oracle producing the function result message.
The attempted-call message `function_call_request.get_message()` is likewise
modelled from the spec as `assistant_function_call` of the accumulated name
and arguments.  On a rate limit the history is untouched and the same
submission is retried after a five second sleep; on success the coerced input
messages are appended first (`self.append(*messages)` runs only after the
request was created), then the stream is reduced and the finish reason
dispatched. -/
def chatSubmitStep (call : String → String → Message) (msgs : List Message)
    (inputs : List MessageInput) (outcome : APIOutcome) : ChatStepResult :=
  let fullMessages := msgs ++ coerceInputs inputs
  match outcome with
  | .rateLimited =>
    { request := some fullMessages, action := .retrySame 5 }
  | .success stream =>
    let appIn := coerceInputs inputs
    match chatProcessStream "" none stream with
    | (app, .error e) =>
      { appended := appIn ++ app, request := some fullMessages, error := some e }
    | (app, .ok (finishReason, fv, _rest)) =>
      if finishReason == "function_call" then
        match fv with
        | none =>
          { appended := appIn ++ app, request := some fullMessages,
            error := some msgIncompleteCall }
        | some nargs =>
          { appended := appIn ++ app ++
              [assistant_function_call nargs.1 (some nargs.2), call nargs.1 nargs.2],
            request := some fullMessages, action := .resubmitEmpty }
      else if finishReason == "stop" then
        { appended := appIn ++ app, request := some fullMessages }
      else if finishReason == "max_tokens" || finishReason == "length" then
        { appended := appIn ++ app, request := some fullMessages,
          printed := ["max tokens or overall length is too high...\n"] }
      else if finishReason == "content_filter" then
        { appended := appIn ++ app, request := some fullMessages,
          printed := ["Content omitted due to OpenAI content filters...\n"] }
      else
        { appended := appIn ++ app, request := some fullMessages,
          printed := ["UNKNOWN FINISH REASON: \x27" ++ finishReason ++
            "\x27. If you see this message, report it as an issue to https://github.com/rgbkrk/chatlab/issues"] }

/-- Accumulated result of a full (recursive) `Chat.submit` run: the final
history, the request bodies sent (in order), the sleeps performed, and the
exception that escaped, if any. -/
structure ChatSubmitResult where
  messages : List Message
  requests : List (List Message)
  sleeps : List Nat
  error : Option String := none
deriving Repr, DecidableEq

/-- The full recursive `Chat.submit` driver.  The real API always answers, so
the driver consumes one `APIOutcome` per attempt; running out of outcomes is a
modelling artifact reported as an error.  A rate-limited attempt retries the
same submission against the remaining outcomes; a function_call finish
resubmits with no new input messages. -/
def chatSubmit (call : String → String → Message) (msgs : List Message)
    (inputs : List MessageInput) : List APIOutcome → ChatSubmitResult
  | [] =>
    { messages := msgs, requests := [], sleeps := [],
      error := some "model API gave no outcome (modelling fuel exhausted)" }
  | outcome :: rest =>
    let r := chatSubmitStep call msgs inputs outcome
    let newMsgs := msgs ++ r.appended
    let reqs : List (List Message) :=
      match r.request with
      | some q => [q]
      | none => []
    match r.error with
    | some e =>
      { messages := newMsgs, requests := reqs, sleeps := [], error := some e }
    | none =>
      match r.action with
      | .halt =>
        { messages := newMsgs, requests := reqs, sleeps := [] }
      | .retrySame d =>
        let r2 := chatSubmit call msgs inputs rest
        { r2 with requests := reqs ++ r2.requests, sleeps := d :: r2.sleeps }
      | .resubmitEmpty =>
        let r2 := chatSubmit call newMsgs [] rest
        { r2 with requests := reqs ++ r2.requests }

/-- Python str.strip() modelled over the character list: drop leading and
trailing whitespace.  (Lean's own String.trim is not kernel-reducible, so the
model uses structural recursion over `String.data`.) -/
def pyStrip (s : String) : String :=
  ⟨((s.data.dropWhile Char.isWhitespace).reverse.dropWhile Char.isWhitespace).reverse⟩

/-- Whether a character list starts with the given sequence. -/
def listStartsWith : List Char → List Char → Bool
  | _, [] => true
  | [], _ :: _ => false
  | a :: as, b :: bs => a == b && listStartsWith as bs

/-- Whether a character list contains the given contiguous sequence. -/
def listContainsSeq : List Char → List Char → Bool
  | [], needle => needle.isEmpty
  | a :: as, needle => listStartsWith (a :: as) needle || listContainsSeq as needle

/-- Python `needle in hay` on strings: substring containment. -/
def strContainsSub (hay needle : String) : Bool :=
  listContainsSeq hay.data needle.data

/-- Result of processing one choice in `Conversation.submit`
(src/murkrow/conversation.py): messages appended, the Markdown text buffer
afterwards, the accumulated `ChatFunctionCall` (name with accumulated
argument string) afterwards, and the raised exception message if any. -/
structure ConvChoiceResult where
  appended : List Message := []
  buf : String := ""
  cf : Option (String × String) := none
  error : Option String := none
deriving Repr, DecidableEq

/-- One iteration of the loop body of `Conversation.submit`
(src/murkrow/conversation.py lines 128-159), delta handling only (the finish
check is in the stream function because a raise skips it).  Murkrow streams
are dicts: a `some` field models a present key (with a non-None value where
the source checks that).  On the first function_call delta, while no
`ChatFunctionCall` exists, a nonempty (after strip, modelled by pyStrip)
Markdown buffer is wrapped into an assistant message and a fresh buffer
started.  The `ChatFunctionCall` display object (murkrow/display.py is not
under src/) is modelled from the spec as a name plus accumulated argument
string. -/
def convProcessChoice (buf : String) (cf : Option (String × String)) (c : Choice) :
    ConvChoiceResult :=
  match c.delta with
  | none => { buf := buf, cf := cf }
  | some d =>
    match d.content with
    | some txt => { buf := buf ++ txt, cf := cf }
    | none =>
      match d.function_call with
      | none => { buf := buf, cf := cf }
      | some fc =>
        let flushed : List Message × String :=
          match cf with
          | none => cond (pyStrip buf != "") ([assistant buf], "") ([], buf)
          | some _ => ([], buf)
        let cf1 : Option (String × String) :=
          match fc.name with
          | some n => some (n, "")
          | none => cf
        match fc.arguments with
        | none => { appended := flushed.1, buf := flushed.2, cf := cf1 }
        | some a =>
          match cf1 with
          | none =>
            { appended := flushed.1, buf := flushed.2, cf := none,
              error := some msgArgsNoName }
          | some nargs =>
            { appended := flushed.1, buf := flushed.2,
              cf := some (nargs.1, nargs.2 ++ a) }

/-- The stream loop of `Conversation.submit` (src/murkrow/conversation.py
lines 125-162).  Murkrow iterates choices (`result['choices'][0]`, a nonempty
choice list is assumed by the source).  The loop breaks at the first non-null
finish reason, returning it with the buffer, the accumulated function call and
the unconsumed rest; exhaustion without a finish reason is not an error here
(finish stays `none`). -/
def convProcessStream (buf : String) (cf : Option (String × String)) :
    List Choice →
      List Message × Except String (Option String × String × Option (String × String) × List Choice)
  | [] => ([], Except.ok (none, buf, cf, []))
  | c :: rest =>
    let r := convProcessChoice buf cf c
    match r.error with
    | some e => (r.appended, Except.error e)
    | none =>
      match c.finish_reason with
      | some reason => (r.appended, Except.ok (some reason, r.buf, r.cf, rest))
      | none =>
        let rec2 := convProcessStream r.buf r.cf rest
        (r.appended ++ rec2.1, rec2.2)

/-- Result of one `Conversation.submit` call: messages appended, raised
exception if any, and whether the conversation is resubmitted
(`self.chat()` at line 182). -/
structure ConvResult where
  appended : List Message := []
  error : Option String := none
  resubmit : Bool := false
deriving Repr, DecidableEq

/-- `Conversation.submit` (src/murkrow/conversation.py lines 95-193), given
the stream the API returned.  `call` models `chat_function.call()`
(murkrow/display.py is not under src/): modelled from the spec, the registry
executes the named callable on the accumulated argument string and the
response-or-error message is returned for the model.  On a function_call
finish the attempted call and the result are appended and the conversation is
resubmitted exactly when the `auto_continue` argument (defaulting to the
instance setting) is true; a `stop` or `max_tokens` finish appends the
Markdown buffer as an assistant message unconditionally; any other finish
reason (or stream exhaustion with none) appends nothing further. -/
def convSubmit (call : String → String → Message) (inputs : List MessageInput)
    (autoArg : Option Bool) (selfAuto : Bool) (stream : List Choice) : ConvResult :=
  let appIn := coerceInputs inputs
  match convProcessStream "" none stream with
  | (app, .error e) => { appended := appIn ++ app, error := some e }
  | (app, .ok (finishOpt, buf, cf, _rest)) =>
    match finishOpt with
    | some reason =>
      if reason == "function_call" then
        match cf with
        | none => { appended := appIn ++ app, error := some msgFinishNoName }
        | some nargs =>
          let continuing :=
            match autoArg with
            | some b => b
            | none => selfAuto
          { appended := appIn ++ app ++
              [assistant_function_call nargs.1 (some nargs.2), call nargs.1 nargs.2],
            resubmit := continuing }
      else if reason == "stop" then
        { appended := appIn ++ app ++ [assistant buf] }
      else if reason == "max_tokens" then
        { appended := appIn ++ app ++ [assistant buf] }
      else
        { appended := appIn ++ app }
    | none => { appended := appIn ++ app }

/-- Mutable loop state of `Session.chat` (src/murkrow/murkrow.py): the
Markdown buffer, the `ChatFunctionDisplay` accumulator (name with accumulated
argument string; murkrow/display.py is not under src/, modelled from the spec
as an argument-string accumulator for the named function), and the
`in_function` flag. -/
structure SessState where
  buf : String := ""
  disp : Option (String × String) := none
  inFn : Bool := false
deriving Repr, DecidableEq

/-- The delta-handling half of the loop body of `Session.chat`
(src/murkrow/murkrow.py lines 112-136).  On a function_call delta while not
`in_function`, a buffer that is nonempty after strip (modelled by pyStrip) is
wrapped into an assistant message and reset, and `in_function` is set; a name
fragment starts a fresh `ChatFunctionDisplay` (modelled from the spec as a
name plus accumulated argument string; murkrow/display.py is not under src/);
an arguments fragment without any accumulated display raises. -/
def sessDeltaStep (st : SessState) : Option Delta → List Message × Except String SessState
  | none => ([], Except.ok st)
  | some d =>
    match d.content with
    | some txt => ([], Except.ok { st with buf := st.buf ++ txt })
    | none =>
      match d.function_call with
      | none => ([], Except.ok st)
      | some fc =>
        let entered : List Message × SessState :=
          cond st.inFn ([], st)
            (cond (pyStrip st.buf != "")
              ([assistant st.buf], { st with buf := "", inFn := true })
              ([], { st with inFn := true }))
        let named : SessState :=
          match fc.name with
          | some n => { entered.2 with disp := some (n, "") }
          | none => entered.2
        match fc.arguments with
        | none => (entered.1, Except.ok named)
        | some a =>
          match named.disp with
          | none => (entered.1, Except.error msgArgsNoName)
          | some nargs =>
            (entered.1, Except.ok { named with disp := some (nargs.1, nargs.2 ++ a) })

/-- The finish-reason half of the loop body of `Session.chat`
(src/murkrow/murkrow.py lines 138-173), run in the same iteration after the
delta half; the loop does not break on a finish reason.  On a function_call
finish the function is executed only when the accumulated name and argument
strings are both nonempty (Python truthiness) and the name is registered
(otherwise nothing happens); `callFn` models
`repr(self.function_registry.call(name, json.loads(args)))` and may raise
(json decoding or the callable itself), modelled as `Except`.  On any other
non-null finish reason, while not inside a function call, the Markdown buffer
is appended as an assistant message (unconditionally, without resetting the
buffer), and a finish reason containing `max_tokens` as a substring appends a
marker to the display buffer. -/
def sessFinishStep (registry : List String)
    (callFn : String → String → Except String String)
    (st1 : SessState) : Option String → List Message × Except String SessState
  | none => ([], Except.ok st1)
  | some reason =>
    cond (reason == "function_call")
      (match st1.disp with
       | none => ([], Except.error msgFinishNoName)
       | some nargs =>
         cond (nargs.1 != "" && nargs.2 != "" && registry.contains nargs.1)
           (match callFn nargs.1 nargs.2 with
            | .error e =>
              ([assistant_function_call nargs.1 (some nargs.2)], Except.error e)
            | .ok res =>
              ([assistant_function_call nargs.1 (some nargs.2),
                function_result nargs.1 res],
               Except.ok { st1 with disp := none, inFn := false }))
           ([], Except.ok st1))
      (let wrapped : List Message × SessState :=
         cond st1.inFn ([], st1) ([assistant st1.buf], st1)
       let st2 :=
         cond (strContainsSub reason "max_tokens")
           { wrapped.2 with buf := wrapped.2.buf ++ "\n...MAX TOKENS REACHED...\n" }
           wrapped.2
       (wrapped.1, Except.ok st2))

/-- One iteration of the loop body of `Session.chat`
(src/murkrow/murkrow.py lines 108-173) for one choice: the delta half
followed, if it did not raise, by the finish half, appending in order. -/
def sessProcessChoice (registry : List String)
    (callFn : String → String → Except String String)
    (st : SessState) (c : Choice) : List Message × Except String SessState :=
  match sessDeltaStep st c.delta with
  | (app, .error e) => (app, Except.error e)
  | (app, .ok st1) =>
    match sessFinishStep registry callFn st1 c.finish_reason with
    | (app2, .error e) => (app ++ app2, Except.error e)
    | (app2, .ok st2) => (app ++ app2, Except.ok st2)

/-- The stream loop of `Session.chat`: folds `sessProcessChoice` over every
choice of the stream (the loop never breaks early). -/
def sessProcessStream (registry : List String)
    (callFn : String → String → Except String String)
    (st : SessState) : List Choice → List Message × Except String SessState
  | [] => ([], Except.ok st)
  | c :: rest =>
    match sessProcessChoice registry callFn st c with
    | (app, .error e) => (app, Except.error e)
    | (app, .ok st1) =>
      let rec2 := sessProcessStream registry callFn st1 rest
      (app ++ rec2.1, rec2.2)

/-- Result of one `Session.chat` call: messages appended, raised exception if
any, and whether `self.chat()` is called again. -/
structure SessResult where
  appended : List Message := []
  error : Option String := none
  resubmit : Bool := false
deriving Repr, DecidableEq

/-- `Session.chat` (src/murkrow/murkrow.py lines 73-190), given the stream the
API returned.  The input messages are appended, the whole stream is folded,
then `continuing` is the `auto_continue` argument if given, else the instance
setting, and the conversation is re-entered exactly when `continuing` holds
and the last message of the history has role `function`
(`self.messages[-1]` on an empty history raises an IndexError). -/
def sessionChat (registry : List String)
    (callFn : String → String → Except String String)
    (msgs : List Message) (inputs : List MessageInput)
    (autoArg : Option Bool) (selfAuto : Bool) (stream : List Choice) : SessResult :=
  let appIn := coerceInputs inputs
  match sessProcessStream registry callFn { buf := "", disp := none, inFn := false } stream with
  | (app, .error e) => { appended := appIn ++ app, error := some e }
  | (app, .ok _st) =>
    let continuing :=
      match autoArg with
      | some b => b
      | none => selfAuto
    cond continuing
      (match (msgs ++ appIn ++ app).getLast? with
       | none =>
         { appended := appIn ++ app, error := some "IndexError: list index out of range" }
       | some m =>
         { appended := appIn ++ app, resubmit := m.role == "function" })
      { appended := appIn ++ app }

/-! Helper lemmas shared by the claim theorems. -/

/-- The append loop is concatenation with the coerced inputs. -/
theorem chatAppend_eq_append (msgs : List Message) (inputs : List MessageInput) :
    chatAppend msgs inputs = msgs ++ coerceInputs inputs := by
  induction inputs generalizing msgs with
  | nil => simp [chatAppend, coerceInputs]
  | cons i t ih =>
    simp only [chatAppend, List.foldl_cons] at *
    rw [ih (msgs ++ [coerceInput i])]
    simp [coerceInputs]

/-- Every round of `Chat.submit` sends exactly the current history followed by
the coerced input messages. -/
theorem chatSubmitStep_request (call : String → String → Message) (msgs : List Message)
    (inputs : List MessageInput) (outcome : APIOutcome) :
    (chatSubmitStep call msgs inputs outcome).request = some (msgs ++ coerceInputs inputs) := by
  cases outcome with
  | rateLimited => rfl
  | success stream =>
    simp only [chatSubmitStep]
    rcases chatProcessStream "" none stream with ⟨app, out⟩
    cases out with
    | error e => rfl
    | ok v =>
      rcases v with ⟨reason, fv, rest⟩
      simp only
      split
      · cases fv <;> rfl
      · split
        · rfl
        · split
          · rfl
          · split <;> rfl

/-- The history only grows across a full recursive `Chat.submit` run. -/
theorem chatSubmit_messages_prefix (call : String → String → Message) :
    ∀ (outcomes : List APIOutcome) (msgs : List Message) (inputs : List MessageInput),
      msgs <+: (chatSubmit call msgs inputs outcomes).messages := by
  intro outcomes
  induction outcomes with
  | nil =>
    intro msgs inputs
    simp [chatSubmit]
  | cons o rest ih =>
    intro msgs inputs
    simp only [chatSubmit]
    cases herr : (chatSubmitStep call msgs inputs o).error with
    | some e =>
      simp only [herr]
      exact List.prefix_append msgs _
    | none =>
      cases hact : (chatSubmitStep call msgs inputs o).action with
      | halt =>
        simp only [herr, hact]
        exact List.prefix_append msgs _
      | retrySame d =>
        simp only [herr, hact]
        exact ih msgs inputs
      | resubmitEmpty =>
        simp only [herr, hact]
        exact (List.prefix_append msgs _).trans (ih (msgs ++ _) [])

/-- A chatlab stream in which a function_call.arguments fragment arrives
before any function_call.name fragment: scanning consumed events in order
(skipping chunks with no choices), the first function_call fragment carrying
arguments comes before any name fragment and before any stream-terminating
finish reason.  Content fragments sharing a delta with a function_call hide it
(the reducer dispatches content first). -/
def chatArgsBeforeName : List Chunk → Bool
  | [] => false
  | ch :: rest =>
    match ch.choices.head? with
    | none => chatArgsBeforeName rest
    | some c =>
      match c.delta with
      | some d =>
        match d.content with
        | some _ =>
          (match c.finish_reason with
           | some _ => false
           | none => chatArgsBeforeName rest)
        | none =>
          match d.function_call with
          | some fc =>
            (match fc.name, fc.arguments with
             | some _, _ => false
             | none, some _ => true
             | none, none =>
               (match c.finish_reason with
                | some _ => false
                | none => chatArgsBeforeName rest))
          | none =>
            (match c.finish_reason with
             | some _ => false
             | none => chatArgsBeforeName rest)
      | none =>
        (match c.finish_reason with
         | some _ => false
         | none => chatArgsBeforeName rest)

/-- Same scan over a murkrow `Conversation.submit` stream (choices). -/
def convArgsBeforeName : List Choice → Bool
  | [] => false
  | c :: rest =>
    match c.delta with
    | some d =>
      match d.content with
      | some _ =>
        (match c.finish_reason with
         | some _ => false
         | none => convArgsBeforeName rest)
      | none =>
        match d.function_call with
        | some fc =>
          (match fc.name, fc.arguments with
           | some _, _ => false
           | none, some _ => true
           | none, none =>
             (match c.finish_reason with
              | some _ => false
              | none => convArgsBeforeName rest))
        | none =>
          (match c.finish_reason with
           | some _ => false
           | none => convArgsBeforeName rest)
    | none =>
      (match c.finish_reason with
       | some _ => false
       | none => convArgsBeforeName rest)

/-- Same scan over a `Session.chat` stream.  `Session.chat` does not stop at a
non-function_call finish reason, so scanning continues past one; only a
function_call finish ends the scan (it raises a different error there). -/
def sessArgsBeforeName : List Choice → Bool
  | [] => false
  | c :: rest =>
    match c.delta with
    | some d =>
      match d.content with
      | some _ =>
        (match c.finish_reason with
         | some r => cond (r == "function_call") false (sessArgsBeforeName rest)
         | none => sessArgsBeforeName rest)
      | none =>
        match d.function_call with
        | some fc =>
          (match fc.name, fc.arguments with
           | some _, _ => false
           | none, some _ => true
           | none, none =>
             (match c.finish_reason with
              | some r => cond (r == "function_call") false (sessArgsBeforeName rest)
              | none => sessArgsBeforeName rest))
        | none =>
          (match c.finish_reason with
           | some r => cond (r == "function_call") false (sessArgsBeforeName rest)
           | none => sessArgsBeforeName rest)
    | none =>
      (match c.finish_reason with
       | some r => cond (r == "function_call") false (sessArgsBeforeName rest)
       | none => sessArgsBeforeName rest)

/-- `Chat.__process_stream` raises the arguments-without-name ValueError on
every stream whose first function-call fragment is an arguments fragment. -/
theorem chatStream_args_before_name :
    ∀ (stream : List Chunk) (buf : String),
      chatArgsBeforeName stream = true →
      (chatProcessStream buf none stream).2 = Except.error msgArgsNoName := by
  intro stream
  induction stream with
  | nil => intro buf h; simp [chatArgsBeforeName] at h
  | cons ch rest ih =>
    intro buf h
    cases hh : ch.choices.head? with
    | none =>
      rw [chatArgsBeforeName, hh] at h
      rw [chatProcessStream, hh]
      exact ih buf h
    | some c =>
      rw [chatArgsBeforeName, hh] at h
      rw [chatProcessStream, hh]
      rcases c with ⟨cd, fr⟩
      cases cd with
      | none =>
        cases fr with
        | some r => simp at h
        | none => simp only [chatProcessChoice]; exact ih buf h
      | some d =>
        rcases d with ⟨dc, dfc⟩
        cases dc with
        | some txt =>
          cases fr with
          | some r => simp at h
          | none =>
            simp only [chatProcessChoice]
            exact ih (buf ++ txt) h
        | none =>
          cases dfc with
          | none =>
            cases fr with
            | some r => simp at h
            | none => simp only [chatProcessChoice]; exact ih buf h
          | some fc =>
            rcases fc with ⟨fn, fa⟩
            cases fn with
            | some n => simp at h
            | none =>
              cases fa with
              | some a => simp [chatProcessChoice]
              | none =>
                cases fr with
                | some r => simp at h
                | none => simp only [chatProcessChoice]; exact ih buf h

/-- `Conversation.submit` raises the arguments-without-name ValueError on
every stream whose first function-call fragment is an arguments fragment. -/
theorem convStream_args_before_name :
    ∀ (stream : List Choice) (buf : String),
      convArgsBeforeName stream = true →
      (convProcessStream buf none stream).2 = Except.error msgArgsNoName := by
  intro stream
  induction stream with
  | nil => intro buf h; simp [convArgsBeforeName] at h
  | cons c rest ih =>
    intro buf h
    rw [convArgsBeforeName] at h
    rw [convProcessStream]
    rcases c with ⟨cd, fr⟩
    cases cd with
    | none =>
      cases fr with
      | some r => simp at h
      | none => exact ih buf h
    | some d =>
      rcases d with ⟨dc, dfc⟩
      cases dc with
      | some txt =>
        cases fr with
        | some r => simp at h
        | none => exact ih (buf ++ txt) h
      | none =>
        cases dfc with
        | none =>
          cases fr with
          | some r => simp at h
          | none => exact ih buf h
        | some fc =>
          rcases fc with ⟨fn, fa⟩
          cases fn with
          | some n => simp at h
          | none =>
            cases fa with
            | some a => simp [convProcessChoice]
            | none =>
              cases fr with
              | some r => simp at h
              | none => exact ih _ h

/-- A non-function_call finish reason in `Session.chat` never raises and
keeps the accumulated function display and the `in_function` flag. -/
theorem sessFinishStep_other (registry : List String)
    (callFn : String → String → Except String String) (st1 : SessState) (r : String)
    (hfc : (r == "function_call") = false) :
    ∃ app2 st2, sessFinishStep registry callFn st1 (some r) = (app2, Except.ok st2) ∧
      st2.disp = st1.disp ∧ st2.inFn = st1.inFn := by
  rw [sessFinishStep, hfc, Bool.cond_false]
  cases hin : st1.inFn <;> cases hmt : strContainsSub r "max_tokens" <;>
    exact ⟨_, _, rfl, rfl, hin⟩

/-- A function_call delta with neither name nor arguments in `Session.chat`
does not change the accumulated function display. -/
theorem sessDeltaStep_fcPlain (st : SessState) :
    ∃ app st1,
      sessDeltaStep st (some ⟨none, some ⟨none, none⟩⟩) =
        (app, Except.ok st1) ∧ st1.disp = st.disp := by
  cases hin : st.inFn <;> cases htr : pyStrip st.buf != "" <;>
    simp [sessDeltaStep, hin, htr] <;> exact ⟨_, _, ⟨rfl, rfl⟩, rfl⟩

/-- An arguments fragment with no name seen raises in `Session.chat`. -/
theorem sessDeltaStep_argsFirst (st : SessState) (hd : st.disp = none) (a : String) :
    ∃ app,
      sessDeltaStep st (some ⟨none, some ⟨none, some a⟩⟩) =
        (app, Except.error msgArgsNoName) := by
  cases hin : st.inFn <;> cases htr : pyStrip st.buf != "" <;>
    simp [sessDeltaStep, hin, htr, hd]

/-- `Session.chat` raises the arguments-without-name ValueError on every
stream whose first function-call fragment is an arguments fragment, from any
state in which no function name has been seen. -/
theorem sessStream_args_before_name (registry : List String)
    (callFn : String → String → Except String String) :
    ∀ (stream : List Choice) (st : SessState), st.disp = none →
      sessArgsBeforeName stream = true →
      (sessProcessStream registry callFn st stream).2 = Except.error msgArgsNoName := by
  intro stream
  induction stream with
  | nil => intro st hd h; simp [sessArgsBeforeName] at h
  | cons c rest ih =>
    intro st hd h
    rw [sessArgsBeforeName] at h
    rw [sessProcessStream]
    rcases c with ⟨cd, fr⟩
    cases cd with
    | none =>
      cases fr with
      | none => exact ih st hd h
      | some r =>
        simp only at h
        cases hfc : (r == "function_call") with
        | true => rw [hfc, Bool.cond_true] at h; simp at h
        | false =>
          rw [hfc, Bool.cond_false] at h
          obtain ⟨app2, st2, hfs, hd2, _⟩ :=
            sessFinishStep_other registry callFn st r hfc
          simp only [sessProcessChoice, sessDeltaStep, hfs]
          exact ih st2 (hd2.trans hd) h
    | some d =>
      rcases d with ⟨dc, dfc⟩
      cases dc with
      | some txt =>
        cases fr with
        | none => exact ih { st with buf := st.buf ++ txt } hd h
        | some r =>
          simp only at h
          cases hfc : (r == "function_call") with
          | true => rw [hfc, Bool.cond_true] at h; simp at h
          | false =>
            rw [hfc, Bool.cond_false] at h
            obtain ⟨app2, st2, hfs, hd2, _⟩ :=
              sessFinishStep_other registry callFn { st with buf := st.buf ++ txt } r hfc
            simp only [sessProcessChoice, sessDeltaStep, hfs]
            exact ih st2 (hd2.trans hd) h
      | none =>
        cases dfc with
        | none =>
          cases fr with
          | none => exact ih st hd h
          | some r =>
            simp only at h
            cases hfc : (r == "function_call") with
            | true => rw [hfc, Bool.cond_true] at h; simp at h
            | false =>
              rw [hfc, Bool.cond_false] at h
              obtain ⟨app2, st2, hfs, hd2, _⟩ :=
                sessFinishStep_other registry callFn st r hfc
              simp only [sessProcessChoice, sessDeltaStep, hfs]
              exact ih st2 (hd2.trans hd) h
        | some fc =>
          rcases fc with ⟨fn, fa⟩
          cases fn with
          | some n => simp at h
          | none =>
            cases fa with
            | some a =>
              obtain ⟨app, hds⟩ := sessDeltaStep_argsFirst st hd a
              simp [sessProcessChoice, hds]
            | none =>
              obtain ⟨app, st1, hds, hd1⟩ := sessDeltaStep_fcPlain st
              cases fr with
              | none =>
                simp only [sessProcessChoice, hds, sessFinishStep]
                exact ih st1 (hd1.trans hd) h
              | some r =>
                simp only at h
                cases hfc : (r == "function_call") with
                | true => rw [hfc, Bool.cond_true] at h; simp at h
                | false =>
                  rw [hfc, Bool.cond_false] at h
                  obtain ⟨app2, st2, hfs, hd2, _⟩ :=
                    sessFinishStep_other registry callFn st1 r hfc
                  simp only [sessProcessChoice, hds, hfs]
                  exact ih st2 (hd2.trans (hd1.trans hd)) h

/-- A concrete stream whose single chunk carries an arguments fragment before
any name fragment. -/
def argsFirstChunkStream : List Chunk :=
  [⟨[⟨some ⟨none, some ⟨none, some "x"⟩⟩, none⟩]⟩]

/-- The same argument-first stream as bare choices (murkrow reducers). -/
def argsFirstChoiceStream : List Choice :=
  [⟨some ⟨none, some ⟨none, some "x"⟩⟩, none⟩]

/-- Claim C2: in all three stream reducers (`Chat.__process_stream`,
`Conversation.submit`, `Session.chat`), a function_call.arguments fragment
arriving before any function_call.name fragment has been seen raises the
ValueError "Function arguments provided without function name" rather than
accumulating the arguments. -/
theorem c2_args_before_name_error :
    (∀ (stream : List Chunk) (buf : String), chatArgsBeforeName stream = true →
        (chatProcessStream buf none stream).2 = Except.error msgArgsNoName) ∧
    (∀ (stream : List Choice) (buf : String), convArgsBeforeName stream = true →
        (convProcessStream buf none stream).2 = Except.error msgArgsNoName) ∧
    (∀ (registry : List String) (callFn : String → String → Except String String)
        (stream : List Choice) (st : SessState), st.disp = none →
        sessArgsBeforeName stream = true →
        (sessProcessStream registry callFn st stream).2 = Except.error msgArgsNoName) :=
  ⟨chatStream_args_before_name, convStream_args_before_name,
   fun registry callFn => sessStream_args_before_name registry callFn⟩

/-- Witness for C2: the hypotheses are satisfiable — a concrete argument-first
stream makes each of the three reducers raise. -/
theorem c2_args_before_name_error_witness :
    (chatProcessStream "" none argsFirstChunkStream).2 = Except.error msgArgsNoName ∧
    (convProcessStream "" none argsFirstChoiceStream).2 = Except.error msgArgsNoName ∧
    (sessProcessStream ["f"] (fun _ _ => Except.ok "ran")
        { buf := "", disp := none, inFn := false } argsFirstChoiceStream).2 =
      Except.error msgArgsNoName :=
  ⟨c2_args_before_name_error.1 argsFirstChunkStream "" (by decide),
   c2_args_before_name_error.2.1 argsFirstChoiceStream "" (by decide),
   c2_args_before_name_error.2.2 ["f"] (fun _ _ => Except.ok "ran")
     argsFirstChoiceStream { buf := "", disp := none, inFn := false } rfl (by decide)⟩

/-- The only exception `Chat.__process_stream` can raise while handling a
single choice is the arguments-without-name ValueError. -/
theorem chatProcessChoice_error_cases (buf : String) (fv : Option (String × String))
    (c : Choice) (e : String) (h : (chatProcessChoice buf fv c).error = some e) :
    e = msgArgsNoName := by
  rcases c with ⟨cd, fr⟩
  cases cd with
  | none => cases fr <;> simp [chatProcessChoice] at h
  | some d =>
    rcases d with ⟨dc, dfc⟩
    cases dc with
    | some txt => cases fr <;> simp [chatProcessChoice] at h
    | none =>
      cases dfc with
      | none => cases fr <;> simp [chatProcessChoice] at h
      | some fc =>
        rcases fc with ⟨fn, fa⟩
        cases fn with
        | some n =>
          cases hb : buf != "" <;> cases fa <;> cases fr <;>
            simp [chatProcessChoice, hb] at h
        | none =>
          cases fa with
          | none => cases fr <;> simp [chatProcessChoice] at h
          | some a =>
            cases fv with
            | some p => cases fr <;> simp [chatProcessChoice] at h
            | none =>
              simp [chatProcessChoice] at h
              exact h.symm

/-- The only exceptions `Chat.__process_stream` can raise over a whole stream
are the arguments-without-name ValueError and the no-finish-reason
ValueError. -/
theorem chatProcessStream_error_cases :
    ∀ (stream : List Chunk) (buf : String) (fv : Option (String × String)) (e : String),
      (chatProcessStream buf fv stream).2 = Except.error e →
      e = msgArgsNoName ∨ e = msgNoFinish := by
  intro stream
  induction stream with
  | nil =>
    intro buf fv e h
    simp [chatProcessStream] at h
    exact Or.inr h.symm
  | cons ch rest ih =>
    intro buf fv e h
    cases hh : ch.choices.head? with
    | none =>
      simp only [chatProcessStream, hh] at h
      exact ih buf fv e h
    | some choice =>
      cases herr : (chatProcessChoice buf fv choice).error with
      | some e2 =>
        simp only [chatProcessStream, hh, herr] at h
        have h2 := chatProcessChoice_error_cases buf fv choice e2 herr
        injection h with h3
        exact Or.inl (h3 ▸ h2)
      | none =>
        cases hfin : (chatProcessChoice buf fv choice).finish with
        | some reason =>
          simp only [chatProcessStream, hh, herr, hfin] at h
          exact Except.noConfusion h
        | none =>
          simp only [chatProcessStream, hh, herr, hfin] at h
          exact ih _ _ e h

/-- When handling a choice raises no exception, the recorded finish reason is
exactly the choice's finish_reason field. -/
theorem chatProcessChoice_finish (buf : String) (fv : Option (String × String)) (c : Choice)
    (h : (chatProcessChoice buf fv c).error = none) :
    (chatProcessChoice buf fv c).finish = c.finish_reason := by
  rcases c with ⟨cd, fr⟩
  cases cd with
  | none => cases fr <;> simp [chatProcessChoice]
  | some d =>
    rcases d with ⟨dc, dfc⟩
    cases dc with
    | some txt => cases fr <;> simp [chatProcessChoice]
    | none =>
      cases dfc with
      | none => cases fr <;> simp [chatProcessChoice]
      | some fc =>
        rcases fc with ⟨fn, fa⟩
        cases fn with
        | some n =>
          cases hb : buf != "" <;> cases fa <;> cases fr <;>
            simp [chatProcessChoice, hb]
        | none =>
          cases fa with
          | none => cases fr <;> simp [chatProcessChoice]
          | some a =>
            cases fv with
            | some p => cases fr <;> simp [chatProcessChoice]
            | none => cases fr <;> simp [chatProcessChoice] at h

/-- The content branch of `Chat.__process_stream` excludes the function-call
branches on the same event (the dispatch is if/elif). -/
theorem chatProcessChoice_branch_exclusive (buf : String) (fv : Option (String × String))
    (c : Choice) (h : Branch.content ∈ (chatProcessChoice buf fv c).branches) :
    Branch.fcName ∉ (chatProcessChoice buf fv c).branches ∧
    Branch.fcArgs ∉ (chatProcessChoice buf fv c).branches := by
  rcases c with ⟨cd, fr⟩
  cases cd with
  | none => cases fr <;> simp [chatProcessChoice] at h
  | some d =>
    rcases d with ⟨dc, dfc⟩
    cases dc with
    | some txt => cases fr <;> simp [chatProcessChoice]
    | none =>
      cases dfc with
      | none => cases fr <;> simp [chatProcessChoice] at h
      | some fc =>
        rcases fc with ⟨fn, fa⟩
        cases fn with
        | some n =>
          cases hb : buf != "" <;> cases fa <;> cases fr <;>
            simp [chatProcessChoice, hb] at h
        | none =>
          cases fa with
          | none => cases fr <;> simp [chatProcessChoice] at h
          | some a =>
            cases fv <;> cases fr <;> simp [chatProcessChoice] at h

/-- The finish reason carried by a chunk: its first choice's finish_reason
(no choices means none; such chunks are skipped). -/
def chunkFinish (ch : Chunk) : Option String :=
  match ch.choices.head? with
  | none => none
  | some c => c.finish_reason

/-- `Chat.__process_stream` stops at the first consumed event carrying a
non-null finish reason: a successful reduction splits the stream into a
prefix of finish-free chunks, the finishing chunk, and an unconsumed
remainder returned untouched. -/
theorem chatStream_stops_at_first_finish :
    ∀ (stream : List Chunk) (buf : String) (fv : Option (String × String))
      (app : List Message) (reason : String) (fv2 : Option (String × String))
      (rest : List Chunk),
      chatProcessStream buf fv stream = (app, Except.ok (reason, fv2, rest)) →
      ∃ pre c, stream = pre ++ c :: rest ∧ chunkFinish c = some reason ∧
        ∀ c2 ∈ pre, chunkFinish c2 = none := by
  intro stream
  induction stream with
  | nil =>
    intro buf fv app reason fv2 rest h
    simp [chatProcessStream] at h
  | cons ch rest0 ih =>
    intro buf fv app reason fv2 rest h
    cases hh : ch.choices.head? with
    | none =>
      simp only [chatProcessStream, hh] at h
      obtain ⟨pre, c, hsplit, hc, hpre⟩ := ih buf fv app reason fv2 rest h
      refine ⟨ch :: pre, c, ?_, hc, ?_⟩
      · rw [hsplit]; rfl
      · intro c2 hc2
        rcases List.mem_cons.mp hc2 with h5 | h5
        · subst h5; simp [chunkFinish, hh]
        · exact hpre c2 h5
    | some choice =>
      cases herr : (chatProcessChoice buf fv choice).error with
      | some e =>
        simp only [chatProcessStream, hh, herr, Prod.mk.injEq] at h
        exact Except.noConfusion h.2
      | none =>
        cases hfin : (chatProcessChoice buf fv choice).finish with
        | some reason2 =>
          simp only [chatProcessStream, hh, herr, hfin, Prod.mk.injEq,
            Except.ok.injEq] at h
          obtain ⟨happ, h1, h2, h3⟩ := h
          refine ⟨[], ch, ?_, ?_, ?_⟩
          · simp [h3]
          · have h4 := chatProcessChoice_finish buf fv choice herr
            rw [chunkFinish, hh]
            show choice.finish_reason = some reason
            rw [← h4, hfin, h1]
          · intro c2 hc2; simp at hc2
        | none =>
          rcases hrec : chatProcessStream (chatProcessChoice buf fv choice).buf
              (chatProcessChoice buf fv choice).fv rest0 with ⟨app2, out2⟩
          simp only [chatProcessStream, hh, herr, hfin, hrec, Prod.mk.injEq] at h
          obtain ⟨happ, hout⟩ := h
          rw [hout] at hrec
          obtain ⟨pre, c, hsplit, hc, hpre⟩ := ih _ _ app2 reason fv2 rest hrec
          refine ⟨ch :: pre, c, ?_, hc, ?_⟩
          · rw [hsplit]; rfl
          · intro c2 hc2
            rcases List.mem_cons.mp hc2 with h5 | h5
            · subst h5
              have h4 := chatProcessChoice_finish buf fv choice herr
              rw [chunkFinish, hh]
              show choice.finish_reason = none
              rw [← h4, hfin]
            · exact hpre c2 h5

/-- `Conversation.submit` stops at the first event carrying a non-null finish
reason: a reduction ending with a finish reason splits the stream into a
prefix of finish-free choices, the finishing choice, and an unconsumed
remainder returned untouched. -/
theorem convStream_stops_at_first_finish :
    ∀ (stream : List Choice) (buf : String) (cf : Option (String × String))
      (app : List Message) (reason : String) (buf2 : String)
      (cf2 : Option (String × String)) (rest : List Choice),
      convProcessStream buf cf stream = (app, Except.ok (some reason, buf2, cf2, rest)) →
      ∃ pre c, stream = pre ++ c :: rest ∧ c.finish_reason = some reason ∧
        ∀ c2 ∈ pre, c2.finish_reason = none := by
  intro stream
  induction stream with
  | nil =>
    intro buf cf app reason buf2 cf2 rest h
    simp [convProcessStream] at h
  | cons c0 rest0 ih =>
    intro buf cf app reason buf2 cf2 rest h
    cases herr : (convProcessChoice buf cf c0).error with
    | some e =>
      simp only [convProcessStream, herr, Prod.mk.injEq] at h
      exact Except.noConfusion h.2
    | none =>
      cases hfin : c0.finish_reason with
      | some reason2 =>
        simp only [convProcessStream, herr, hfin, Prod.mk.injEq,
          Except.ok.injEq] at h
        obtain ⟨happ, h1, h2, h3, h4⟩ := h
        refine ⟨[], c0, ?_, ?_, ?_⟩
        · simp [h4]
        · rw [hfin, h1]
        · intro c2 hc2; simp at hc2
      | none =>
        rcases hrec : convProcessStream (convProcessChoice buf cf c0).buf
            (convProcessChoice buf cf c0).cf rest0 with ⟨app2, out2⟩
        simp only [convProcessStream, herr, hfin, hrec, Prod.mk.injEq] at h
        obtain ⟨happ, hout⟩ := h
        rw [hout] at hrec
        obtain ⟨pre, c, hsplit, hc, hpre⟩ := ih _ _ app2 reason buf2 cf2 rest hrec
        refine ⟨c0 :: pre, c, ?_, hc, ?_⟩
        · rw [hsplit]; rfl
        · intro c2 hc2
          rcases List.mem_cons.mp hc2 with h5 | h5
          · subst h5; exact hfin
          · exact hpre c2 h5

/-- A concrete function-call oracle used in witnesses: the registry executes
the named function and wraps the result. -/
def oracleCall : String → String → Message :=
  fun n a => function_result n ("ran " ++ n ++ " " ++ a)

/-- A concrete stream whose only event carries the finish reason
content_filter. -/
def contentFilterStream : List Chunk :=
  [⟨[⟨none, some "content_filter"⟩]⟩]

/-- Counterexample to claim C5 as stated: `Chat` stream handling has a third
exception beyond the two enumerated ones.  On a stream whose final event
carries finish reason function_call while no function-call fragment was ever
streamed, `Chat.submit` raises the incomplete-function-call ValueError, which
is neither the malformed-stream message nor the arguments-before-name
message. -/
theorem c5_counterexample :
    (chatSubmitStep oracleCall [] []
        (APIOutcome.success [⟨[⟨none, some "function_call"⟩]⟩])).error =
      some msgIncompleteCall ∧
    msgIncompleteCall ≠ msgNoFinish ∧ msgIncompleteCall ≠ msgArgsNoName := by
  refine ⟨rfl, ?_, ?_⟩ <;> decide

/-- Claim C5 (amended): `Chat` stream handling raises exactly the three
enumerated ValueErrors — malformed stream with no finish reason, function
arguments before a function name, and a function_call finish with no complete
accumulated function call — while a successfully reduced stream whose finish
reason is neither stop nor function_call (max_tokens, length, content_filter,
or unknown) is reported by printing an inline diagnostic and returns without
raising. -/
theorem c5_error_surface (call : String → String → Message) (msgs : List Message)
    (inputs : List MessageInput) (stream : List Chunk) :
    (∀ e, (chatSubmitStep call msgs inputs (APIOutcome.success stream)).error = some e →
        e = msgNoFinish ∨ e = msgArgsNoName ∨ e = msgIncompleteCall) ∧
    (∀ app reason fv rest,
        chatProcessStream "" none stream = (app, Except.ok (reason, fv, rest)) →
        reason ≠ "stop" → reason ≠ "function_call" →
        (chatSubmitStep call msgs inputs (APIOutcome.success stream)).error = none ∧
        (chatSubmitStep call msgs inputs (APIOutcome.success stream)).printed ≠ []) := by
  constructor
  · intro e he
    rcases hps : chatProcessStream "" none stream with ⟨app, out⟩
    cases out with
    | error e2 =>
      have h2 : (chatProcessStream "" none stream).2 = Except.error e2 := by
        rw [hps]
      have h3 := chatProcessStream_error_cases stream "" none e2 h2
      simp only [chatSubmitStep, hps] at he
      injection he with he2
      cases h3 with
      | inl h4 => exact Or.inr (Or.inl (he2 ▸ h4))
      | inr h4 => exact Or.inl (he2 ▸ h4)
    | ok v =>
      rcases v with ⟨reason, fv, rest⟩
      simp only [chatSubmitStep, hps] at he
      by_cases h1 : (reason == "function_call") = true
      · rw [if_pos h1] at he
        cases fv with
        | none =>
          injection he with he2
          exact Or.inr (Or.inr he2.symm)
        | some nargs => simp at he
      · rw [if_neg h1] at he
        by_cases h2 : (reason == "stop") = true
        · rw [if_pos h2] at he
          simp at he
        · rw [if_neg h2] at he
          by_cases h3 : (reason == "max_tokens" || reason == "length") = true
          · rw [if_pos h3] at he
            simp at he
          · rw [if_neg h3] at he
            by_cases h4 : (reason == "content_filter") = true
            · rw [if_pos h4] at he
              simp at he
            · rw [if_neg h4] at he
              simp at he
  · intro app reason fv rest hps hstop hfc
    have h1 : (reason == "function_call") = false := by
      simp [hfc]
    have h2 : (reason == "stop") = false := by
      simp [hstop]
    constructor
    · simp only [chatSubmitStep, hps, h1, h2]
      by_cases h3 : (reason == "max_tokens" || reason == "length") = true
      · simp [h3]
      · simp only [Bool.not_eq_true] at h3
        simp only [h3]
        by_cases h4 : (reason == "content_filter") = true
        · simp [h4]
        · simp only [Bool.not_eq_true] at h4
          simp [h4]
    · simp only [chatSubmitStep, hps, h1, h2]
      by_cases h3 : (reason == "max_tokens" || reason == "length") = true
      · simp [h3]
      · simp only [Bool.not_eq_true] at h3
        simp only [h3]
        by_cases h4 : (reason == "content_filter") = true
        · simp [h4]
        · simp only [Bool.not_eq_true] at h4
          simp [h4]

/-- Witness for C5: the hypotheses are satisfiable — a stream finishing with
content_filter is reduced successfully and the submit round prints a
diagnostic without raising. -/
theorem c5_error_surface_witness :
    (chatSubmitStep oracleCall [] [] (APIOutcome.success contentFilterStream)).error = none ∧
    (chatSubmitStep oracleCall [] [] (APIOutcome.success contentFilterStream)).printed ≠ [] :=
  (c5_error_surface oracleCall [] [] contentFilterStream).2 [] "content_filter" none []
    rfl (by decide) (by decide)

/-- A concrete stream whose only chunk carries the finish reason stop. -/
def stopChunkStream : List Chunk :=
  [⟨[⟨none, some "stop"⟩]⟩]

/-- Counterexample to claim C3 as stated: a single delta carrying both a
function_call.name fragment and a function_call.arguments fragment is handled
by two of the four dispatch branches, not exactly one. -/
theorem c3_counterexample :
    (chatProcessChoice "" none ⟨some ⟨none, some ⟨some "f", some "x"⟩⟩, none⟩).branches =
      [Branch.fcName, Branch.fcArgs] ∧
    (chatProcessChoice "" none ⟨some ⟨none, some ⟨some "f", some "x"⟩⟩, none⟩).branches.length ≠ 1 := by
  constructor <;> decide

/-- Claim C3 (amended): the stream reducer is a single pass in which each
event is dispatched on the fields it carries — the content branch and the
function-call branches are mutually exclusive on one event, but one event can
take both the name and the arguments branch, a delta branch together with the
finish branch, or no branch at all — and iteration stops at the first
consumed event with a non-null finish reason, with the events after it
returned unconsumed (in both `Chat.__process_stream` and
`Conversation.submit`). -/
theorem c3_single_pass :
    (∀ (buf : String) (fv : Option (String × String)) (c : Choice),
        Branch.content ∈ (chatProcessChoice buf fv c).branches →
        Branch.fcName ∉ (chatProcessChoice buf fv c).branches ∧
        Branch.fcArgs ∉ (chatProcessChoice buf fv c).branches) ∧
    (∀ (stream : List Chunk) (buf : String) (fv : Option (String × String))
        (app : List Message) (reason : String) (fv2 : Option (String × String))
        (rest : List Chunk),
        chatProcessStream buf fv stream = (app, Except.ok (reason, fv2, rest)) →
        ∃ pre c, stream = pre ++ c :: rest ∧ chunkFinish c = some reason ∧
          ∀ c2 ∈ pre, chunkFinish c2 = none) ∧
    (∀ (stream : List Choice) (buf : String) (cf : Option (String × String))
        (app : List Message) (reason : String) (buf2 : String)
        (cf2 : Option (String × String)) (rest : List Choice),
        convProcessStream buf cf stream = (app, Except.ok (some reason, buf2, cf2, rest)) →
        ∃ pre c, stream = pre ++ c :: rest ∧ c.finish_reason = some reason ∧
          ∀ c2 ∈ pre, c2.finish_reason = none) :=
  ⟨chatProcessChoice_branch_exclusive,
   chatStream_stops_at_first_finish,
   convStream_stops_at_first_finish⟩

/-- Witness for C3: the hypotheses are satisfiable — a concrete content event
takes the content branch, and a concrete one-chunk stop stream is reduced
with an empty unconsumed remainder. -/
theorem c3_single_pass_witness :
    (Branch.fcName ∉ (chatProcessChoice "" none ⟨some ⟨some "hi", none⟩, none⟩).branches ∧
      Branch.fcArgs ∉ (chatProcessChoice "" none ⟨some ⟨some "hi", none⟩, none⟩).branches) ∧
    (∃ pre c, stopChunkStream = pre ++ c :: ([] : List Chunk) ∧
      chunkFinish c = some "stop" ∧ ∀ c2 ∈ pre, chunkFinish c2 = none) ∧
    (∃ pre c, ([⟨none, some "stop"⟩] : List Choice) = pre ++ c :: ([] : List Choice) ∧
      c.finish_reason = some "stop" ∧ ∀ c2 ∈ pre, c2.finish_reason = none) :=
  ⟨c3_single_pass.1 "" none ⟨some ⟨some "hi", none⟩, none⟩ (by decide),
   c3_single_pass.2.1 stopChunkStream "" none [] "stop" none [] rfl,
   c3_single_pass.2.2 [⟨none, some "stop"⟩] "" none [] "stop" "" none [] rfl⟩

/-- A concrete session execution oracle used in witnesses and
counterexamples. -/
def oracleExec : String → String → Except String String :=
  fun n a => Except.ok ("ran " ++ n ++ " " ++ a)

/-- A concrete stream: a name fragment, an arguments fragment, then a
function_call finish. -/
def fnCallChunkStream : List Chunk :=
  [⟨[⟨some ⟨none, some ⟨some "f", none⟩⟩, none⟩]⟩,
   ⟨[⟨some ⟨none, some ⟨none, some "x"⟩⟩, none⟩]⟩,
   ⟨[⟨none, some "function_call"⟩]⟩]

/-- The same stream as bare choices (murkrow reducers). -/
def fnCallChoiceStream : List Choice :=
  [⟨some ⟨none, some ⟨some "f", none⟩⟩, none⟩,
   ⟨some ⟨none, some ⟨none, some "x"⟩⟩, none⟩,
   ⟨none, some "function_call"⟩]

/-- A stream that names a registered function but never streams any
arguments fragment, then finishes with function_call. -/
def fnCallNoArgsChoiceStream : List Choice :=
  [⟨some ⟨none, some ⟨some "f", none⟩⟩, none⟩,
   ⟨none, some "function_call"⟩]

/-- Counterexample to claim C1 as stated: `Session.chat`, on a streamed
response whose final event carries finish reason function_call naming the
registered function "f" with an empty accumulated argument string, executes
nothing, appends neither the attempted-call message nor any result message,
and does not resubmit (`function_args` is falsy, so the execution branch is
skipped and the last message is not a function result). -/
theorem c1_counterexample :
    sessionChat ["f"] oracleExec [] [MessageInput.str "hi"] none true
        fnCallNoArgsChoiceStream =
      { appended := [user "hi"], error := none, resubmit := false } := by
  rfl

/-- Claim C1 (amended): on a streamed response reduced to a function_call
finish with an accumulated call, `Chat.submit` appends the attempted
function-call message and the executed function's result message and
resubmits unconditionally; `Conversation.submit` does the same and resubmits
exactly when the auto_continue argument (defaulting to the instance setting)
is true; `Session.chat` executes the named function and appends the
attempted-call and result messages only when the accumulated name and
argument strings are both nonempty and the name is registered, and afterwards
resubmits exactly when its auto-continue setting resolves true and the last
message of the history has role function. -/
theorem c1_function_call_continuation (call : String → String → Message)
    (msgs : List Message) (inputs : List MessageInput)
    (registry : List String) (callFn : String → String → Except String String)
    (autoArg : Option Bool) (selfAuto : Bool) :
    (∀ (stream : List Chunk) (app : List Message) (n a : String) (rest : List Chunk),
        chatProcessStream "" none stream =
          (app, Except.ok ("function_call", some (n, a), rest)) →
        chatSubmitStep call msgs inputs (APIOutcome.success stream) =
          { appended := coerceInputs inputs ++ app ++
              [assistant_function_call n (some a), call n a],
            request := some (msgs ++ coerceInputs inputs),
            action := NextAction.resubmitEmpty, error := none, printed := [] }) ∧
    (∀ (stream : List Choice) (app : List Message) (n a buf2 : String)
        (rest : List Choice),
        convProcessStream "" none stream =
          (app, Except.ok (some "function_call", buf2, some (n, a), rest)) →
        convSubmit call inputs autoArg selfAuto stream =
          { appended := coerceInputs inputs ++ app ++
              [assistant_function_call n (some a), call n a],
            error := none,
            resubmit := (match autoArg with | some b => b | none => selfAuto) }) ∧
    (∀ (st : SessState) (n a res : String), st.disp = some (n, a) →
        (n != "") = true → (a != "") = true → registry.contains n = true →
        callFn n a = Except.ok res →
        sessProcessChoice registry callFn st ⟨none, some "function_call"⟩ =
          ([assistant_function_call n (some a), function_result n res],
           Except.ok { st with disp := none, inFn := false })) ∧
    (∀ (stream : List Choice) (app : List Message) (st1 : SessState) (m : Message),
        sessProcessStream registry callFn { buf := "", disp := none, inFn := false }
            stream = (app, Except.ok st1) →
        (msgs ++ coerceInputs inputs ++ app).getLast? = some m →
        (sessionChat registry callFn msgs inputs autoArg selfAuto stream).resubmit =
          ((match autoArg with | some b => b | none => selfAuto) &&
            (m.role == "function"))) := by
  refine ⟨?_, ?_, ?_, ?_⟩
  · intro stream app n a rest hps
    simp [chatSubmitStep, hps]
  · intro stream app n a buf2 rest hps
    simp [convSubmit, hps]
  · intro st n a res hd hn ha hr hcall
    have hcond : ((n != "") && (a != "") && registry.contains n) = true := by
      rw [hn, ha, hr]; rfl
    simp only [sessProcessChoice, sessDeltaStep, sessFinishStep, hd, hcond, hcall]
    rfl
  · intro stream app st1 m hps hlast
    cases hc : (match autoArg with | some b => b | none => selfAuto) with
    | true =>
      simp only [sessionChat, hps, hc, Bool.cond_true, hlast, Bool.true_and]
    | false =>
      simp only [sessionChat, hps, hc, Bool.cond_false, Bool.false_and]

/-- Witness for C1: the hypotheses are satisfiable — on a concrete stream
naming registered function "f" with arguments "x" and finishing with
function_call, `Chat.submit` appends the call and result and resubmits; the
concrete function_call finish choice executes in `Session.chat`. -/
theorem c1_function_call_continuation_witness :
    chatSubmitStep oracleCall [] [] (APIOutcome.success fnCallChunkStream) =
      { appended := [] ++ [] ++
          [assistant_function_call "f" (some "x"), oracleCall "f" "x"],
        request := some ([] ++ []),
        action := NextAction.resubmitEmpty, error := none, printed := [] } ∧
    sessProcessChoice ["f"] oracleExec
        { buf := "", disp := some ("f", "x"), inFn := true }
        ⟨none, some "function_call"⟩ =
      ([assistant_function_call "f" (some "x"), function_result "f" ("ran " ++ "f" ++ " " ++ "x")],
       Except.ok { buf := "", disp := none, inFn := false }) :=
  ⟨(c1_function_call_continuation oracleCall [] [] ["f"] oracleExec none true).1
      fnCallChunkStream [] "f" "x" [] rfl,
   (c1_function_call_continuation oracleCall [] [] ["f"] oracleExec none true).2.2.1
      { buf := "", disp := some ("f", "x"), inFn := true } "f" "x"
      ("ran " ++ "f" ++ " " ++ "x") rfl rfl rfl rfl rfl⟩

/-- Whether a choice carries a function_call.name fragment that
`Chat.__process_stream` dispatches on (content deltas hide the function_call
because the dispatch is if/elif). -/
def nameDeltaArrives (c : Choice) : Bool :=
  match c.delta with
  | none => false
  | some d =>
    match d.content with
    | some _ => false
    | none =>
      match d.function_call with
      | none => false
      | some fc => fc.name.isSome

/-- Counterexample to claim C7 as stated: in `Conversation.submit`, buffered
assistant text in progress is not flushed when the stream finishes with the
reason content_filter — the buffered text "hi" is silently dropped and no
assistant message is appended. -/
theorem c7_counterexample :
    convSubmit oracleCall [] none true
        [⟨some ⟨some "hi", none⟩, none⟩, ⟨none, some "content_filter"⟩] =
      { appended := [], error := none, resubmit := false } := by
  rfl

/-- Claim C7 (amended): in `Chat.__process_stream` the buffered assistant
text is flushed into a single assistant message exactly when a
function_call.name delta arrives while the buffer is nonempty or when the
stream ends (by break on a finish reason or by exhaustion) with a nonempty
buffer, and the accumulator is empty afterwards.  In `Conversation.submit`
the flush instead happens at the first function_call delta (even one carrying
only arguments) when the stripped buffer is nonempty, and a stop finish
appends the buffer as an assistant message unconditionally — even when
empty — while other finish reasons such as content_filter flush nothing. -/
theorem c7_flush_boundaries :
    (∀ (buf : String) (fv : Option (String × String)) (c : Choice),
        (chatProcessChoice buf fv c).appended =
          cond (nameDeltaArrives c && (buf != "")) [assistant buf] []) ∧
    (∀ (buf : String) (fv : Option (String × String)) (c : Choice),
        nameDeltaArrives c = true → (chatProcessChoice buf fv c).buf = "") ∧
    (∀ (buf : String) (fv : Option (String × String)),
        chatProcessStream buf fv [] =
          (cond (buf != "") [assistant buf] [], Except.error msgNoFinish)) ∧
    (∀ (buf : String) (fv : Option (String × String)) (ch : Chunk) (choice : Choice)
        (rest : List Chunk) (reason : String),
        ch.choices.head? = some choice →
        (chatProcessChoice buf fv choice).error = none →
        (chatProcessChoice buf fv choice).finish = some reason →
        chatProcessStream buf fv (ch :: rest) =
          ((chatProcessChoice buf fv choice).appended ++
             cond ((chatProcessChoice buf fv choice).buf != "")
               [assistant (chatProcessChoice buf fv choice).buf] [],
           Except.ok (reason, (chatProcessChoice buf fv choice).fv, rest))) ∧
    (convProcessChoice "hi" none ⟨some ⟨none, some ⟨none, some "x"⟩⟩, none⟩ =
      { appended := [assistant "hi"], buf := "", cf := none,
        error := some msgArgsNoName }) ∧
    (convSubmit oracleCall [] none true [⟨none, some "stop"⟩] =
      { appended := [assistant ""], error := none, resubmit := false }) := by
  refine ⟨?_, ?_, ?_, ?_, ?_, ?_⟩
  · intro buf fv c
    rcases c with ⟨cd, fr⟩
    cases cd with
    | none => cases fr <;> simp [chatProcessChoice, nameDeltaArrives]
    | some d =>
      rcases d with ⟨dc, dfc⟩
      cases dc with
      | some txt => cases fr <;> simp [chatProcessChoice, nameDeltaArrives]
      | none =>
        cases dfc with
        | none => cases fr <;> simp [chatProcessChoice, nameDeltaArrives]
        | some fc =>
          rcases fc with ⟨fn, fa⟩
          cases fn with
          | some n =>
            cases hb : buf != "" <;> cases fa <;> cases fr <;>
              simp [chatProcessChoice, nameDeltaArrives, hb]
          | none =>
            cases fa with
            | none => cases fr <;> simp [chatProcessChoice, nameDeltaArrives]
            | some a =>
              cases fv <;> cases fr <;>
                simp [chatProcessChoice, nameDeltaArrives]
  · intro buf fv c hname
    rcases c with ⟨cd, fr⟩
    cases cd with
    | none => simp [nameDeltaArrives] at hname
    | some d =>
      rcases d with ⟨dc, dfc⟩
      cases dc with
      | some txt => simp [nameDeltaArrives] at hname
      | none =>
        cases dfc with
        | none => simp [nameDeltaArrives] at hname
        | some fc =>
          rcases fc with ⟨fn, fa⟩
          cases fn with
          | none => simp [nameDeltaArrives] at hname
          | some n =>
            cases hb : buf != "" with
            | true =>
              cases fa <;> cases fr <;> simp [chatProcessChoice, hb]
            | false =>
              have hbuf : buf = "" := by
                simpa using hb
              cases fa <;> cases fr <;> simp [chatProcessChoice, hb, hbuf]
  · intro buf fv
    rfl
  · intro buf fv ch choice rest reason hh herr hfin
    simp only [chatProcessStream, hh, herr, hfin]
  · rfl
  · rfl

/-- Witness for C7: the hypotheses are satisfiable — a concrete name delta
with a nonempty buffer resets the accumulator, and a concrete content-then-
stop stream flushes the buffered text at the finish. -/
theorem c7_flush_boundaries_witness :
    (chatProcessChoice "hi" none ⟨some ⟨none, some ⟨some "f", none⟩⟩, none⟩).buf = "" ∧
    chatProcessStream "" none [⟨[⟨some ⟨some "hi", none⟩, some "stop"⟩]⟩] =
      ((chatProcessChoice "" none ⟨some ⟨some "hi", none⟩, some "stop"⟩).appended ++
         cond ((chatProcessChoice "" none ⟨some ⟨some "hi", none⟩, some "stop"⟩).buf != "")
           [assistant (chatProcessChoice "" none ⟨some ⟨some "hi", none⟩, some "stop"⟩).buf] [],
       Except.ok ("stop", (chatProcessChoice "" none ⟨some ⟨some "hi", none⟩, some "stop"⟩).fv, [])) :=
  ⟨c7_flush_boundaries.2.1 "hi" none ⟨some ⟨none, some ⟨some "f", none⟩⟩, none⟩ rfl,
   c7_flush_boundaries.2.2.2.1 "" none ⟨[⟨some ⟨some "hi", none⟩, some "stop"⟩]⟩
     ⟨some ⟨some "hi", none⟩, some "stop"⟩ [] "stop" rfl rfl rfl⟩

/-- Claim C9: every string argument to `Chat.append` (and to `submit`, which
uses the same coercion) is stored as exactly the user-role message built by
`human = user`, namely the dict with role `user` and content the given string
and no other payload, and appending n inputs grows the history by exactly n,
in argument order. -/
theorem c9_string_append (s : String) (msgs : List Message) (inputs : List MessageInput) :
    user s = { role := "user", content := some s, function_call := none, name := none } ∧
    human s = user s ∧
    coerceInput (MessageInput.str s) = user s ∧
    chatAppend msgs inputs = msgs ++ inputs.map coerceInput ∧
    (chatAppend msgs inputs).length = msgs.length + inputs.length := by
  refine ⟨rfl, rfl, rfl, chatAppend_eq_append msgs inputs, ?_⟩
  simp [chatAppend_eq_append, coerceInputs]

/-- Claim C10: `assistant_function_call name None` equals
`assistant_function_call name ""`; the message always has content None and a
function_call whose arguments field is a string (the empty string when no
arguments are given), never None. -/
theorem c10_assistant_function_call (name : String) (arguments : Option String) :
    assistant_function_call name none = assistant_function_call name (some "") ∧
    (assistant_function_call name arguments).content = none ∧
    (assistant_function_call name arguments).function_call =
      some { name := name, arguments := arguments.getD "" } := by
  refine ⟨rfl, ?_, ?_⟩ <;> cases arguments <;> rfl

/-- Claim C4: a submission attempt that fails with a rate-limit error appends
nothing, prints nothing, raises nothing, and performs exactly one fixed-delay
(5 second) retry of the same submission: the driver records exactly one
5-second sleep per rate-limited outcome and re-sends the identical request. -/
theorem c4_rate_limit_retry (call : String → String → Message) (msgs : List Message)
    (inputs : List MessageInput) (rest : List APIOutcome) :
    chatSubmitStep call msgs inputs APIOutcome.rateLimited =
      { appended := [], request := some (msgs ++ coerceInputs inputs),
        action := NextAction.retrySame 5, error := none, printed := [] } ∧
    (chatSubmit call msgs inputs (APIOutcome.rateLimited :: rest)).sleeps =
      5 :: (chatSubmit call msgs inputs rest).sleeps ∧
    (chatSubmit call msgs inputs (APIOutcome.rateLimited :: rest)).requests =
      (msgs ++ coerceInputs inputs) :: (chatSubmit call msgs inputs rest).requests := by
  refine ⟨rfl, ?_, ?_⟩ <;> simp [chatSubmit, chatSubmitStep]

/-- Claim C8: on a rate-limit error the history is unchanged when the retry
begins (the step appends nothing, and the whole run behaves as if the
rate-limited attempt never happened except for the extra request and sleep),
the input messages are appended only after a request is successfully created,
and the retried request is built from the identical message list, so the retry
never duplicates messages in the history. -/
theorem c8_rate_limit_history (call : String → String → Message) (msgs : List Message)
    (inputs : List MessageInput) (rest : List APIOutcome) (stream : List Chunk) :
    (chatSubmitStep call msgs inputs APIOutcome.rateLimited).appended = [] ∧
    (chatSubmit call msgs inputs (APIOutcome.rateLimited :: rest)).messages =
      (chatSubmit call msgs inputs rest).messages ∧
    (chatSubmit call msgs inputs (APIOutcome.rateLimited :: rest)).error =
      (chatSubmit call msgs inputs rest).error ∧
    (chatSubmit call msgs inputs (APIOutcome.rateLimited :: rest)).requests =
      (msgs ++ coerceInputs inputs) :: (chatSubmit call msgs inputs rest).requests ∧
    (chatSubmit call msgs inputs (APIOutcome.success stream :: rest)).requests.head? =
      some (msgs ++ coerceInputs inputs) := by
  refine ⟨rfl, ?_, ?_, ?_, ?_⟩
  · simp [chatSubmit, chatSubmitStep]
  · simp [chatSubmit, chatSubmitStep]
  · simp [chatSubmit, chatSubmitStep]
  · simp only [chatSubmit]
    cases herr : (chatSubmitStep call msgs inputs (APIOutcome.success stream)).error with
    | some e =>
      simp [herr, chatSubmitStep_request call msgs inputs (APIOutcome.success stream)]
    | none =>
      cases hact : (chatSubmitStep call msgs inputs (APIOutcome.success stream)).action with
      | halt => simp [herr, hact, chatSubmitStep_request call msgs inputs (APIOutcome.success stream)]
      | retrySame d => simp [herr, hact, chatSubmitStep_request call msgs inputs (APIOutcome.success stream)]
      | resubmitEmpty => simp [herr, hact, chatSubmitStep_request call msgs inputs (APIOutcome.success stream)]

/-- Claim C6: the message history is an order-preserving, append-only
sequence: the append loop is exactly concatenation of the coerced inputs to
the end, every driver (the full recursive `Chat.submit`, `Session.chat`,
`Conversation.submit`) leaves the previous history as a prefix of the new
history, and the only removal is the explicit `Chat.clear_history`, which
empties the history. -/
theorem c6_append_only (msgs : List Message) (inputs : List MessageInput)
    (call : String → String → Message) (outcomes : List APIOutcome)
    (registry : List String) (callFn : String → String → Except String String)
    (autoArg : Option Bool) (selfAuto : Bool) (stream : List Choice) :
    chatAppend msgs inputs = msgs ++ coerceInputs inputs ∧
    clear_history msgs = [] ∧
    msgs <+: (chatSubmit call msgs inputs outcomes).messages ∧
    msgs <+: msgs ++ (sessionChat registry callFn msgs inputs autoArg selfAuto stream).appended ∧
    msgs <+: msgs ++ (convSubmit call inputs autoArg selfAuto stream).appended :=
  ⟨chatAppend_eq_append msgs inputs, rfl,
   chatSubmit_messages_prefix call outcomes msgs inputs,
   List.prefix_append msgs _, List.prefix_append msgs _⟩

end Chatlab
